import Mathlib

set_option maxHeartbeats 1000000
set_option linter.unusedVariables false

/-!
Shallow embedding of `twitch_video_processor.py`.

The script polls the Twitch API for recent videos of a fixed streamer,
downloads each unseen video with yt-dlp, extracts frames with ffmpeg, and
records handled video ids in an append-only ledger file
(`processed_videos.txt`).

Modelling choices:
* File contents are `List Char` (the byte/character sequence of the file);
  the ledger file is `Option (List Char)` (`none` = the file does not exist).
  Python reads the ledger in text mode: universal-newline translation
  (`pyTranslate`), per-line iteration (`splitLinesCh`) and `str.strip()`
  (`stripCh`, over CPython's full Unicode whitespace set `pyIsSpace`) are
  embedded below.
* External effects (HTTP requests, yt-dlp, ffmpeg, `os.listdir`,
  `os.path.exists`) are oracle inputs: the response or outcome each call
  would observe is part of the run's environment.
* Each operation additionally returns a trace of `Event`s recording the
  network calls, ledger accesses and tool invocations it performs, in order.
* The typed pipeline model assumes the videos payload already parsed into a
  list of records with optional string fields (`RawVideo`), which matches the
  platform schema.  A separate, lower-level JSON model of `get_new_videos`
  (`get_new_videos_json`) embeds the Python dictionary/iteration/exception
  semantics exactly, for the failure-propagation analysis.
-/

/-! ### Python string/file primitives -/

/-- Universal-newline translation performed by Python's text-mode reads: a
CRLF pair and a lone CR are each translated to LF before the stream is seen
by the caller. -/
def pyTranslate : List Char → List Char
  | [] => []
  | [c] => [if c = '\r' then '\n' else c]
  | c :: d :: rest =>
    if c = '\r' then
      if d = '\n' then '\n' :: pyTranslate rest
      else '\n' :: pyTranslate (d :: rest)
    else c :: pyTranslate (d :: rest)

/-- Split an (already newline-translated) character stream into its lines,
with the trailing newline of each line removed — the line contents Python's
`for line in f` iteration yields, before stripping.  An unterminated final
line is itself a line; an empty file has no lines. -/
def splitLinesCh : List Char → List (List Char)
  | [] => []
  | c :: cs =>
    if c = '\n' then [] :: splitLinesCh cs
    else
      match splitLinesCh cs with
      | [] => [[c]]
      | l :: ls => (c :: l) :: ls

/-- Python `str.isspace()` for one character: CPython's whitespace set —
ASCII whitespace (including VT and FF), the information separators
0x1c-0x1f, NEL, NBSP, Ogham space mark, the Unicode en/em/etc. spaces,
line and paragraph separators, narrow NBSP, medium mathematical space and
ideographic space. -/
def pyIsSpace (c : Char) : Bool :=
  c = ' ' ∨ c = '\t' ∨ c = '\n' ∨ c = '\r' ∨ c = '\x0b' ∨ c = '\x0c' ∨
    (0x1c ≤ c.toNat ∧ c.toNat ≤ 0x1f) ∨ c.toNat = 0x85 ∨ c.toNat = 0xa0 ∨
    c.toNat = 0x1680 ∨ (0x2000 ≤ c.toNat ∧ c.toNat ≤ 0x200a) ∨
    c.toNat = 0x2028 ∨ c.toNat = 0x2029 ∨ c.toNat = 0x202f ∨
    c.toNat = 0x205f ∨ c.toNat = 0x3000

/-- Python `str.strip()`: drop leading and trailing whitespace, for the full
`str.isspace()` character set. -/
def stripCh (l : List Char) : List Char :=
  ((l.dropWhile pyIsSpace).reverse.dropWhile pyIsSpace).reverse

/-- The set of processed ids obtained from a ledger file's contents:
`set(line.strip() for line in f)` on a text-mode (universal-newline) read,
represented as the list of stripped lines (membership gives the set
semantics). -/
def loadSet (content : List Char) : List String :=
  (splitLinesCh (pyTranslate content)).map (fun l => (stripCh l).asString)

/-! ### Events and configuration -/

/-- Observable side effects of a run, in the order they are performed. -/
inductive Event where
  | netGet (url : String)
  | ledgerCreate
  | ledgerRead
  | ledgerAppend (video_id : String)
  | toolRun (tool : String) (video_id : String) (ok : Bool)
  | removeFile (path : String)
deriving Repr, DecidableEq

/-- The three module-level configuration strings of the script. -/
structure Config where
  streamer : String
  client_id : String
  token : String
deriving Repr, DecidableEq

def placeholder_streamer : String := "YOUR_STREAMER_USERNAME_HERE"

def placeholder_client_id : String := "YOUR_TWITCH_CLIENT_ID"

def placeholder_token : String := "YOUR_TWITCH_APP_ACCESS_TOKEN"

def OUTPUT_DIRECTORY : String := "twitch_clips"

def tool_yt_dlp : String := "yt-dlp"

def tool_ffmpeg : String := "ffmpeg"

def untitled_title : String := "Untitled Video"

/-- The placeholder check of `main` (lines 195-197 of the source). -/
def has_placeholder (cfg : Config) : Bool :=
  cfg.streamer = placeholder_streamer ∨ cfg.client_id = placeholder_client_id ∨
    cfg.token = placeholder_token

/-- The credential check at the top of `get_twitch_user_id`
(lines 58-59 of the source). -/
def creds_misconfigured (cfg : Config) : Bool :=
  cfg.client_id = "" ∨ cfg.client_id = placeholder_client_id ∨
    cfg.token = "" ∨ cfg.token = placeholder_token

/-! ### Dedup ledger -/

/-- `load_processed_videos`: if the ledger file does not exist, create it
empty and return the empty set; otherwise read it and return the set of
stripped lines.  Returns the processed set, the ledger file after the call,
and the trace. -/
def load_processed_videos :
    Option (List Char) → List String × Option (List Char) × List Event
  | none => ([], some [], [Event.ledgerCreate])
  | some c => (loadSet c, some c, [Event.ledgerRead])

/-- `save_processed_video`: append one id plus a newline to the ledger file
(creating it when absent, as Python open-for-append does). -/
def save_processed_video (video_id : String) :
    Option (List Char) → Option (List Char) × List Event
  | none => (some (video_id.data ++ ['\n']), [Event.ledgerAppend video_id])
  | some c => (some (c ++ video_id.data ++ ['\n']), [Event.ledgerAppend video_id])

/-! ### Catalog client (typed model) -/

/-- The exception classes caught inside the API-calling functions
(`requests` transport errors, HTTP status errors, JSON decode errors). -/
inductive NetError where
  | requestFailed
  | httpError
  | jsonDecodeFailed
deriving Repr, DecidableEq

/-- One entry of the videos payload, with the four fields the script reads;
each may be absent. -/
structure RawVideo where
  id : Option String
  title : Option String
  created_at : Option String
  url : Option String
deriving Repr, DecidableEq

/-- One worklist item as built by `get_new_videos`. -/
structure Video where
  id : String
  title : String
  created_at : Option String
  url : Option String
deriving Repr, DecidableEq

def users_url (username : String) : String :=
  "https://api.twitch.tv/helix/users?login=" ++ username

def videos_url (user_id : String) : String :=
  "https://api.twitch.tv/helix/videos?user_id=" ++ user_id ++
    "&type=archive&sort=time&first=5"

/-- `get_twitch_user_id`: refuse to call the network when the credentials
are empty or placeholders; otherwise perform one GET.  The oracle `resp`
is the outcome that call would observe: `.ok (some uid)` for a successful
lookup, `.ok none` when the user is absent from the response, `.error` for
a caught transport/HTTP/JSON failure (each of which the source logs and
turns into `None`). -/
def get_twitch_user_id (cfg : Config) (username : String)
    (resp : Except NetError (Option String)) : Option String × List Event :=
  if creds_misconfigured cfg then (none, [])
  else
    match resp with
    | Except.ok r => (r, [Event.netGet (users_url username)])
    | Except.error _ => (none, [Event.netGet (users_url username)])

/-- The filtering loop of `get_new_videos` (lines 100-107): keep an entry
iff `video.get("id")` is truthy (present and nonempty) and the id is not in
the processed set, building the worklist item with defaulted title. -/
def filter_new_videos (processed : List String) : List RawVideo → List Video
  | [] => []
  | v :: rest =>
    match v.id with
    | some i =>
      if i ≠ "" ∧ i ∉ processed then
        { id := i, title := v.title.getD untitled_title,
          created_at := v.created_at, url := v.url } ::
          filter_new_videos processed rest
      else filter_new_videos processed rest
    | none => filter_new_videos processed rest

/-- `get_new_videos`: empty result without a network call when `user_id` is
falsy; otherwise one GET whose observed outcome is the oracle `resp`
(`.error` covering the caught transport/HTTP/JSON/key failures, which the
source logs and turns into `[]`). -/
def get_new_videos (user_id : Option String)
    (resp : Except NetError (List RawVideo)) (processed : List String) :
    List Video × List Event :=
  match user_id with
  | none => ([], [])
  | some uid =>
    if uid = "" then ([], [])
    else
      match resp with
      | Except.error _ => ([], [Event.netGet (videos_url uid)])
      | Except.ok vids => (filter_new_videos processed vids, [Event.netGet (videos_url uid)])

/-! ### Acquisition and transform stages -/

/-- Failure modes of an external tool invocation: the executable is missing
(`FileNotFoundError`), it exited non-zero (`CalledProcessError`), or some
other exception was raised. -/
inductive ProcError where
  | toolMissing
  | exitNonzero (code : Nat)
  | otherError
deriving Repr, DecidableEq

/-- Oracle for the external effects one item's processing observes:
the yt-dlp run outcome, the scratch-directory listing scanned after it,
the `os.path.exists` answer for the downloaded path, and the ffmpeg run
outcome. -/
structure ItemOracle where
  dl : Except ProcError Unit
  listing : List String
  path_exists : Bool
  ff : Except ProcError Unit

def temp_download_dir : String := OUTPUT_DIRECTORY ++ "/temp_downloads"

/-- `download_video`: run yt-dlp; on success scan the download directory and
return the path of the first entry whose name starts with the video id
(`item.startswith(video_id)`), or `None` when no entry matches or the tool
failed. -/
def download_video (o : ItemOracle) (video_id : String) (download_path : String) :
    Option String × List Event :=
  match o.dl with
  | Except.error _ => (none, [Event.toolRun tool_yt_dlp video_id false])
  | Except.ok _ =>
    match o.listing.find? (fun item => video_id.data.isPrefixOf item.data) with
    | some item =>
      (some (download_path ++ "/" ++ item), [Event.toolRun tool_yt_dlp video_id true])
    | none => (none, [Event.toolRun tool_yt_dlp video_id true])

/-- `extract_frames`: fail immediately (before any process invocation) when
the path is falsy (`None`/empty) or does not exist on disk; otherwise run
ffmpeg and succeed exactly when it exits zero. -/
def extract_frames (o : ItemOracle) (video_path : Option String)
    (video_id : String) (base_output_dir : String) : Bool × List Event :=
  match video_path with
  | none => (false, [])
  | some p =>
    if p = "" then (false, [])
    else if !o.path_exists then (false, [])
    else
      match o.ff with
      | Except.ok _ => (true, [Event.toolRun tool_ffmpeg video_id true])
      | Except.error _ => (false, [Event.toolRun tool_ffmpeg video_id false])

/-- Whether one item's two stages both succeed: `download_video` returns a
path and `extract_frames` on that path returns `True`. -/
def item_success (o : ItemOracle) (video_id : String) : Bool :=
  match (download_video o video_id temp_download_dir).1 with
  | none => false
  | some path => (extract_frames o (some path) video_id OUTPUT_DIRECTORY).1

/-! ### Pipeline orchestrator -/

/-- The distinct return paths of `main`, distinguishable by its logging. -/
inductive Outcome where
  | configError
  | noUserId
  | noNewVideos
  | completed
deriving Repr, DecidableEq

structure MainResult where
  ledger : Option (List Char)
  outcome : Outcome
  success : Nat
  failure : Nat
  trace : List Event
deriving Repr, DecidableEq

/-- The environment one run observes: the outcome of the user-id request,
the outcome of the videos request, and the per-item external effects keyed
by video id. -/
structure Env where
  userResp : Except NetError (Option String)
  videosResp : Except NetError (List RawVideo)
  orc : String → ItemOracle

/-- The per-item loop of `main` (lines 214-234): for each worklist entry run
download; on success run frame extraction; on success record the id in the
ledger, bump the success counter and remove the temporary file; on either
failure bump the failure counter and continue with the next entry. -/
def main_loop (orc : String → ItemOracle) :
    List Video → Option (List Char) → Nat → Nat →
      Option (List Char) × Nat × Nat × List Event
  | [], ledger, s, f => (ledger, s, f, [])
  | v :: rest, ledger, s, f =>
    match download_video (orc v.id) v.id temp_download_dir with
    | (some path, ev1) =>
      match extract_frames (orc v.id) (some path) v.id OUTPUT_DIRECTORY with
      | (true, ev2) =>
        match save_processed_video v.id ledger with
        | (ledger1, ev3) =>
          match main_loop orc rest ledger1 (s + 1) f with
          | (lf, s1, f1, evR) =>
            (lf, s1, f1, ev1 ++ ev2 ++ ev3 ++ [Event.removeFile path] ++ evR)
      | (false, ev2) =>
        match main_loop orc rest ledger s (f + 1) with
        | (lf, s1, f1, evR) => (lf, s1, f1, ev1 ++ ev2 ++ evR)
    | (none, ev1) =>
      match main_loop orc rest ledger s (f + 1) with
      | (lf, s1, f1, evR) => (lf, s1, f1, ev1 ++ evR)

/-- `main` (lines 191-235): abort on placeholder configuration; load the
ledger; resolve the user id (abort when falsy); list new videos (abort when
empty); then run the per-item loop and report the counters. -/
def main_run (cfg : Config) (ledger0 : Option (List Char)) (env : Env) : MainResult :=
  if has_placeholder cfg then
    { ledger := ledger0, outcome := Outcome.configError, success := 0, failure := 0,
      trace := [] }
  else
    match load_processed_videos ledger0 with
    | (processed, ledger1, ev1) =>
      match get_twitch_user_id cfg cfg.streamer env.userResp with
      | (uidOpt, ev2) =>
        match uidOpt with
        | none =>
          { ledger := ledger1, outcome := Outcome.noUserId, success := 0, failure := 0,
            trace := ev1 ++ ev2 }
        | some uid =>
          if uid = "" then
            { ledger := ledger1, outcome := Outcome.noUserId, success := 0, failure := 0,
              trace := ev1 ++ ev2 }
          else
            match get_new_videos (some uid) env.videosResp processed with
            | (new_videos, ev3) =>
              if new_videos.isEmpty then
                { ledger := ledger1, outcome := Outcome.noNewVideos, success := 0,
                  failure := 0, trace := ev1 ++ ev2 ++ ev3 }
              else
                match main_loop env.orc new_videos ledger1 0 0 with
                | (ledger2, s, f, ev4) =>
                  { ledger := ledger2, outcome := Outcome.completed, success := s,
                    failure := f, trace := ev1 ++ ev2 ++ ev3 ++ ev4 }

/-- The `if __name__ == "__main__"` block (lines 237-240): it ensures the
output directory exists, calls `load_processed_videos()` (creating the
ledger when absent and reading it otherwise), and only then calls `main`. -/
def script_entry (cfg : Config) (ledger0 : Option (List Char)) (env : Env) : MainResult :=
  match load_processed_videos ledger0 with
  | (_, ledger1, ev0) =>
    match main_run cfg ledger1 env with
    | r => { r with trace := ev0 ++ r.trace }

/-- A sequence of whole-script runs, threading the ledger file between them
and concatenating the traces. -/
def script_runs (cfg : Config) : List Env → Option (List Char) →
    Option (List Char) × List Event
  | [], ledger => (ledger, [])
  | e :: es, ledger =>
    match script_entry cfg ledger e with
    | r =>
      match script_runs cfg es r.ledger with
      | (lf, tr) => (lf, r.trace ++ tr)

/-! ### Derived notions used by the theorems -/

/-- The ids recorded in the ledger during a trace, in order. -/
def appended_ids (tr : List Event) : List String :=
  tr.filterMap (fun e =>
    match e with
    | Event.ledgerAppend i => some i
    | _ => none)

/-- How many times one id is appended to the ledger in a trace. -/
def appendCount (i : String) (tr : List Event) : Nat :=
  (appended_ids tr).count i

/-- The ids of the worklist entries whose two stages both succeed under the
given oracles, in worklist order. -/
def succeeding_ids (orc : String → ItemOracle) (wl : List Video) : List String :=
  (wl.filter (fun v => item_success (orc v.id) v.id)).map (fun v => v.id)

/-- The file-content block appended to the ledger by recording a list of
ids in order. -/
def ledger_block (ids : List String) : List Char :=
  (ids.map (fun i => i.data ++ ['\n'])).flatten

/-- The worklist a run computes (empty on every aborted path). -/
def worklist_of (cfg : Config) (env : Env) (processed : List String) : List Video :=
  if has_placeholder cfg then []
  else
    match (get_twitch_user_id cfg cfg.streamer env.userResp).1 with
    | none => []
    | some uid =>
      if uid = "" then []
      else (get_new_videos (some uid) env.videosResp processed).1

/-- Scan a trace keeping the ids with a successful ffmpeg run so far, and
check that every ledger append is for an id whose frames were already
extracted earlier in the trace. -/
def commit_after_frames_aux (seen : List String) : List Event → Bool
  | [] => true
  | e :: rest =>
    match e with
    | Event.toolRun t i ok =>
      commit_after_frames_aux (if t = tool_ffmpeg ∧ ok then i :: seen else seen) rest
    | Event.ledgerAppend i => seen.contains i && commit_after_frames_aux seen rest
    | _ => commit_after_frames_aux seen rest

/-- Every ledger append in the trace is preceded by a successful frame
extraction for the same id. -/
def commit_after_frames (tr : List Event) : Bool :=
  commit_after_frames_aux [] tr

/-- Well-formed file contents: empty or newline-terminated.  Every file this
program itself creates satisfies this. -/
def wf_content (c : List Char) : Prop :=
  c = [] ∨ c.getLast? = some '\n'

def wf_ledger : Option (List Char) → Prop
  | none => True
  | some c => wf_content c

/-- How many entries of a run's videos listing carry a given id. -/
def listing_id_count (e : Env) (i : String) : Nat :=
  match e.videosResp with
  | Except.ok vids => (vids.filterMap RawVideo.id).count i
  | Except.error _ => 0

/-! ### JSON-level model of `get_new_videos`

The typed model above assumes a well-shaped payload.  The source's
try/except block, however, only catches `HTTPError`, `RequestException`,
`json.JSONDecodeError` and `KeyError`; a syntactically valid JSON payload of
an unexpected shape can raise `AttributeError` or `TypeError`, which
propagate out of the function.  This section embeds the body of
`get_new_videos` at the JSON level with Python's exception semantics to
settle exactly which failures degrade to an empty list. -/

inductive Json where
  | null
  | jbool (b : Bool)
  | num (n : Int)
  | str (s : String)
  | arr (elems : List Json)
  | obj (fields : List (String × Json))

/-- The Python exception classes relevant to `get_new_videos`. -/
inductive PyExc where
  | httpError
  | requestException
  | jsonDecodeError
  | keyError
  | attributeError
  | typeError
deriving Repr, DecidableEq

/-- The exception classes the source's except-clauses catch. -/
def caught_by_handlers : PyExc → Bool
  | PyExc.httpError => true
  | PyExc.requestException => true
  | PyExc.jsonDecodeError => true
  | PyExc.keyError => true
  | PyExc.attributeError => false
  | PyExc.typeError => false

/-- Lookup in a Python dict built from a JSON object: a later duplicate key
overwrites an earlier one. -/
def pyLookup (fields : List (String × Json)) (key : String) (dflt : Json) : Json :=
  fields.foldl (fun acc kv => if kv.1 = key then kv.2 else acc) dflt

/-- Python `x.get(key, dflt)`: only dicts have `.get`; anything else raises
`AttributeError`. -/
def pyDictGet (v : Json) (key : String) (dflt : Json) : Except PyExc Json :=
  match v with
  | Json.obj fields => Except.ok (pyLookup fields key dflt)
  | _ => Except.error PyExc.attributeError

/-- Python truthiness of a JSON value. -/
def truthyJson : Json → Bool
  | Json.null => false
  | Json.jbool b => b
  | Json.num n => n != 0
  | Json.str s => s != ""
  | Json.arr l => !l.isEmpty
  | Json.obj f => !f.isEmpty

/-- Python `for x in v`: lists iterate their elements, strings their
characters, dicts their keys; other values raise `TypeError`. -/
def pyIter : Json → Except PyExc (List Json)
  | Json.arr l => Except.ok l
  | Json.str s => Except.ok (s.data.map (fun c => Json.str c.toString))
  | Json.obj f => Except.ok (f.map (fun kv => Json.str kv.1))
  | _ => Except.error PyExc.typeError

/-- Python `v in s` where `s` is a set of strings: unhashable values
(lists, dicts) raise `TypeError`; hashable non-strings are simply absent. -/
def pyInSet (v : Json) (s : List String) : Except PyExc Bool :=
  match v with
  | Json.str x => Except.ok (x ∈ s)
  | Json.arr _ => Except.error PyExc.typeError
  | Json.obj _ => Except.error PyExc.typeError
  | _ => Except.ok false

/-- One worklist entry as the JSON-level loop builds it. -/
structure JVideo where
  id : Json
  title : Json
  created_at : Json
  url : Json

/-- The body of the for-loop of `get_new_videos` for one entry `video`. -/
def video_loop_step (processed : List String) (acc : List JVideo) (video : Json) :
    Except PyExc (List JVideo) := do
  let idv ← pyDictGet video ("id") Json.null
  if truthyJson idv then do
    let mem ← pyInSet idv processed
    if mem then
      pure acc
    else do
      let title ← pyDictGet video ("title") (Json.str untitled_title)
      let created ← pyDictGet video ("created_at") Json.null
      let url ← pyDictGet video ("url") Json.null
      pure (acc ++ [{ id := idv, title := title, created_at := created, url := url }])
  else
    pure acc

/-- The try-block body of `get_new_videos` applied to a decoded payload:
`response.json().get("data", [])` followed by the filtering loop. -/
def get_new_videos_body (payload : Json) (processed : List String) :
    Except PyExc (List JVideo) := do
  let data ← pyDictGet payload ("data") (Json.arr [])
  let items ← pyIter data
  items.foldlM (video_loop_step processed) []

/-- The outcome the videos HTTP request observes, before any shape
assumption: a transport failure (`RequestException`), a non-success status
(`HTTPError` from `raise_for_status`), an undecodable body
(`json.JSONDecodeError`), or a decoded JSON payload. -/
inductive HttpOutcome where
  | transportFail
  | httpFail
  | decodeFail
  | payload (j : Json)

/-- JSON-level `get_new_videos`: the guard on `user_id`, the request
outcome, the loop, and the except-clauses — an exception escapes iff no
handler catches it. -/
def get_new_videos_json (user_id : Option String) (outcome : HttpOutcome)
    (processed : List String) : Except PyExc (List JVideo) :=
  match user_id with
  | none => Except.ok []
  | some uid =>
    if uid = "" then Except.ok []
    else
      match outcome with
      | HttpOutcome.transportFail => Except.ok []
      | HttpOutcome.httpFail => Except.ok []
      | HttpOutcome.decodeFail => Except.ok []
      | HttpOutcome.payload j =>
        match get_new_videos_body j processed with
        | Except.ok vs => Except.ok vs
        | Except.error e => if caught_by_handlers e then Except.ok [] else Except.error e

/-- Hashable JSON values (usable in a set-membership test). -/
def hashableJson : Json → Bool
  | Json.arr _ => false
  | Json.obj _ => false
  | _ => true

/-- A payload entry the loop can process without raising: a JSON object
whose id value (if any) is hashable. -/
def entry_ok : Json → Bool
  | Json.obj fields => hashableJson (pyLookup fields ("id") Json.null)
  | _ => false

/-- A payload shape the try-block processes without raising: a top-level
object whose data value (defaulting to the empty array) is an array of
processable entries. -/
def well_shaped : Json → Bool
  | Json.obj fields =>
    match pyLookup fields ("data") (Json.arr []) with
    | Json.arr items => items.all entry_ok
    | _ => false
  | _ => false

/-! ### Concrete fixtures used to instantiate the theorems -/

/-- A fully configured (non-placeholder) configuration. -/
def good_cfg : Config :=
  { streamer := "somestreamer", client_id := "someclientid", token := "sometoken" }

/-- The out-of-the-box configuration: all three values are placeholders. -/
def placeholder_cfg : Config :=
  { streamer := placeholder_streamer, client_id := placeholder_client_id,
    token := placeholder_token }

/-- An oracle under which both stages succeed, with the given scratch listing. -/
def all_ok_oracle (listing : List String) : ItemOracle :=
  { dl := Except.ok (), listing := listing, path_exists := true, ff := Except.ok () }

/-- An oracle under which the downloader exits non-zero. -/
def fail_dl_oracle : ItemOracle :=
  { dl := Except.error (ProcError.exitNonzero 1), listing := [], path_exists := true,
    ff := Except.ok () }

/-- An environment whose network calls all fail (contents never reached in the
placeholder scenarios that use it). -/
def dummy_env : Env :=
  { userResp := Except.error NetError.requestFailed,
    videosResp := Except.error NetError.requestFailed,
    orc := fun _ => fail_dl_oracle }

/-- A listing entry whose id carries a trailing space. -/
def raw_sp : RawVideo :=
  { id := some ("a" ++ " "), title := some ("t"), created_at := none, url := none }

/-- Environment for the trailing-space scenario: one listed video with id
`"a "`, all external stages succeeding. -/
def env_sp : Env :=
  { userResp := Except.ok (some ("u1")), videosResp := Except.ok [raw_sp],
    orc := fun i => all_ok_oracle [i ++ ".mp4"] }

def raw_a : RawVideo :=
  { id := some ("a"), title := some ("t"), created_at := none, url := none }

def env_a : Env :=
  { userResp := Except.ok (some ("u1")), videosResp := Except.ok [raw_a],
    orc := fun i => all_ok_oracle [i ++ ".mp4"] }

def raw_v1 : RawVideo :=
  { id := some ("v1"), title := some ("t1"), created_at := some ("c1"), url := some ("u1") }

def raw_v2 : RawVideo :=
  { id := some ("v2"), title := some ("t2"), created_at := some ("c2"), url := some ("u2") }

def raw_v3 : RawVideo :=
  { id := some ("v3"), title := some ("t3"), created_at := some ("c3"), url := some ("u3") }

def raw_A : RawVideo :=
  { id := some ("A"), title := some ("tA"), created_at := none, url := none }

def raw_B : RawVideo :=
  { id := some ("B"), title := some ("tB"), created_at := none, url := none }

def raw_C : RawVideo :=
  { id := some ("C"), title := some ("tC"), created_at := none, url := none }

/-- Environment for the isolation scenario: remote listing `[A, B, C]`, all
stages succeeding. -/
def env_abc : Env :=
  { userResp := Except.ok (some ("u1")), videosResp := Except.ok [raw_A, raw_B, raw_C],
    orc := fun i => all_ok_oracle [i ++ ".mp4"] }

/-- Same environment but with B's acquisition failing. -/
def env_abc_failB : Env :=
  { userResp := Except.ok (some ("u1")), videosResp := Except.ok [raw_A, raw_B, raw_C],
    orc := fun i => if i = "B" then fail_dl_oracle else all_ok_oracle [i ++ ".mp4"] }

/-- The worklist items the `[A, B, C]` listing produces. -/
def item_A : Video := { id := "A", title := "tA", created_at := none, url := none }

def item_B : Video := { id := "B", title := "tB", created_at := none, url := none }

def item_C : Video := { id := "C", title := "tC", created_at := none, url := none }

/-- Environment for the idempotence scenario: the listing only holds `v2`,
which the ledger below already records. -/
def env_v2 : Env :=
  { userResp := Except.ok (some ("u1")), videosResp := Except.ok [raw_v2],
    orc := fun i => all_ok_oracle [i ++ ".mp4"] }

/-- Ledger file contents recording exactly `v2`. -/
def ledger_v2 : List Char := ("v2" ++ "\n").data

/-- A well-shaped videos payload with one entry. -/
def payload_ok : Json :=
  Json.obj [("data", Json.arr [Json.obj [("id", Json.str ("v1"))]])]

/-- Oracle for the download-path scenario: the scan finds an entry whose
name extends the id without being of the form id.ext. -/
def o10 : ItemOracle :=
  { dl := Except.ok (), listing := ["v1x.mp4"], path_exists := true,
    ff := Except.ok () }

/-! ### Lemmas: line splitting and ledger-file contents -/

theorem splitLinesCh_eq_nil_iff (l : List Char) : splitLinesCh l = [] ↔ l = [] := by
  cases l with
  | nil => simp [splitLinesCh]
  | cons c cs =>
    simp only [splitLinesCh]
    split
    · simp
    · split <;> simp

theorem splitLinesCh_cons_newline (cs : List Char) :
    splitLinesCh ('\n' :: cs) = [] :: splitLinesCh cs := by
  simp [splitLinesCh]

theorem splitLinesCh_cons_other (c : Char) (cs : List Char) (hc : c ≠ '\n') :
    splitLinesCh (c :: cs) =
      match splitLinesCh cs with
      | [] => [[c]]
      | l :: ls => (c :: l) :: ls := by
  simp only [splitLinesCh, if_neg hc]

theorem splitLinesCh_append (a b : List Char) (ha : a.getLast? = some '\n') :
    splitLinesCh (a ++ b) = splitLinesCh a ++ splitLinesCh b := by
  induction a with
  | nil => simp at ha
  | cons c cs ih =>
    cases cs with
    | nil =>
      simp only [List.getLast?_singleton, Option.some_inj] at ha
      subst ha
      simp [splitLinesCh]
    | cons d ds =>
      have hgl : (d :: ds).getLast? = some '\n' := by
        rwa [List.getLast?_cons_cons] at ha
      have ih' := ih hgl
      rw [List.cons_append]
      by_cases hc : c = '\n'
      · subst hc
        rw [splitLinesCh_cons_newline, splitLinesCh_cons_newline, ih']
        simp
      · have hne : splitLinesCh (d :: ds) ≠ [] := by
          rw [ne_eq, splitLinesCh_eq_nil_iff]
          simp
        rcases hl : splitLinesCh (d :: ds) with _ | ⟨l, ls⟩
        · exact absurd hl hne
        · rw [splitLinesCh_cons_other c _ hc, splitLinesCh_cons_other c _ hc, ih', hl]
          simp

theorem splitLinesCh_line (x : List Char) (hx : '\n' ∉ x) :
    splitLinesCh (x ++ ['\n']) = [x] := by
  induction x with
  | nil => simp [splitLinesCh]
  | cons c cs ih =>
    have hc : c ≠ '\n' := fun h => hx (h ▸ List.mem_cons_self c cs)
    have hcs : '\n' ∉ cs := fun h => hx (List.mem_cons_of_mem _ h)
    simp [splitLinesCh, if_neg hc, ih hcs]

theorem pyTranslate_eq_nil_iff : ∀ (l : List Char), pyTranslate l = [] ↔ l = []
  | [] => by simp [pyTranslate]
  | [c] => by simp [pyTranslate]
  | c :: d :: rest => by
    simp only [pyTranslate]
    split
    · split <;> simp
    · simp

theorem pyTranslate_no_cr : ∀ (l : List Char), '\r' ∉ l → pyTranslate l = l
  | [], _ => rfl
  | [c], h => by
    have hc : c ≠ '\r' := fun hc => h (by simp [hc])
    simp [pyTranslate, hc]
  | c :: d :: rest, h => by
    have hc : c ≠ '\r' := fun hc => h (by simp [hc])
    have h2 : '\r' ∉ d :: rest := fun hm => h (List.mem_cons_of_mem _ hm)
    simp only [pyTranslate, if_neg hc, pyTranslate_no_cr (d :: rest) h2]

theorem pyTranslate_getLast_nl : ∀ (l : List Char), l.getLast? = some '\n' →
    (pyTranslate l).getLast? = some '\n'
  | [], h => by simp at h
  | [c], h => by
    simp only [List.getLast?_singleton, Option.some_inj] at h
    subst h
    simp [pyTranslate]
  | c :: d :: rest, h => by
    rw [List.getLast?_cons_cons] at h
    by_cases hc : c = '\r'
    · by_cases hd : d = '\n'
      · cases rest with
        | nil => simp [pyTranslate, hc, hd]
        | cons e es =>
          have hrest : (e :: es).getLast? = some '\n' := by
            subst hd
            rwa [List.getLast?_cons_cons] at h
          have ih2 := pyTranslate_getLast_nl (e :: es) hrest
          rcases hne : pyTranslate (e :: es) with _ | ⟨y, ys⟩
          · exact absurd ((pyTranslate_eq_nil_iff _).mp hne) (by simp)
          · rw [hne] at ih2
            simp [pyTranslate, hc, hd, hne, List.getLast?_cons_cons, ih2]
      · have ih := pyTranslate_getLast_nl (d :: rest) h
        rcases hne : pyTranslate (d :: rest) with _ | ⟨y, ys⟩
        · exact absurd ((pyTranslate_eq_nil_iff _).mp hne) (by simp)
        · rw [hne] at ih
          simp [pyTranslate, hc, hd, hne, List.getLast?_cons_cons, ih]
    · have ih := pyTranslate_getLast_nl (d :: rest) h
      rcases hne : pyTranslate (d :: rest) with _ | ⟨y, ys⟩
      · exact absurd ((pyTranslate_eq_nil_iff _).mp hne) (by simp)
      · rw [hne] at ih
        simp [pyTranslate, hc, hne, List.getLast?_cons_cons, ih]

theorem pyTranslate_append : ∀ (c b : List Char), c.getLast? ≠ some '\r' →
    pyTranslate (c ++ b) = pyTranslate c ++ pyTranslate b
  | [], b, _ => by simp [pyTranslate]
  | [c0], b, h => by
    have hc : c0 ≠ '\r' := by simpa using h
    cases b with
    | nil => simp [pyTranslate]
    | cons d rest => simp [pyTranslate, hc]
  | c0 :: d :: rest, b, h => by
    rw [List.getLast?_cons_cons] at h
    by_cases hc : c0 = '\r'
    · by_cases hd : d = '\n'
      · cases rest with
        | nil => simp [pyTranslate, hc, hd]
        | cons e es =>
          have h2 : (e :: es).getLast? ≠ some '\r' := by
            subst hd
            rwa [List.getLast?_cons_cons] at h
          have ih := pyTranslate_append (e :: es) b h2
          simp only [List.cons_append] at ih
          simp [pyTranslate, hc, hd, ih]
      · have ih := pyTranslate_append (d :: rest) b h
        simp only [List.cons_append] at ih
        simp [pyTranslate, hc, hd, ih]
    · have ih := pyTranslate_append (d :: rest) b h
      simp only [List.cons_append] at ih
      simp [pyTranslate, hc, ih]

theorem loadSet_append (c b : List Char) (hc : wf_content c) :
    loadSet (c ++ b) = loadSet c ++ loadSet b := by
  rcases hc with h | h
  · subst h
    simp [loadSet, pyTranslate, splitLinesCh]
  · have hcr : c.getLast? ≠ some '\r' := by
      rw [h]
      simp
    rw [loadSet, pyTranslate_append c b hcr,
      splitLinesCh_append _ _ (pyTranslate_getLast_nl c h)]
    simp [loadSet]

theorem loadSet_line (x : List Char) (hx : '\n' ∉ x) (hxr : '\r' ∉ x) :
    loadSet (x ++ ['\n']) = [(stripCh x).asString] := by
  have hcr : x.getLast? ≠ some '\r' := fun hc => hxr (List.mem_of_mem_getLast? hc)
  rw [loadSet, pyTranslate_append x ['\n'] hcr, pyTranslate_no_cr x hxr,
    show pyTranslate ['\n'] = ['\n'] from by decide, splitLinesCh_line x hx]
  rfl

theorem wf_content_append_line (c x : List Char) : wf_content (c ++ (x ++ ['\n'])) := by
  right
  rw [show c ++ (x ++ ['\n']) = (c ++ x) ++ ['\n'] by simp]
  exact List.getLast?_concat _

theorem ledger_block_cons (i : String) (ids : List String) :
    ledger_block (i :: ids) = (i.data ++ ['\n']) ++ ledger_block ids := by
  simp [ledger_block]

theorem wf_content_block (c : List Char) (ids : List String) (hc : wf_content c) :
    wf_content (c ++ ledger_block ids) := by
  induction ids generalizing c with
  | nil => simpa [ledger_block] using hc
  | cons i ids ih =>
    rw [ledger_block_cons, ← List.append_assoc]
    exact ih _ (wf_content_append_line c i.data)

theorem loadSet_block (c : List Char) (ids : List String) (hc : wf_content c) :
    loadSet (c ++ ledger_block ids) =
      loadSet c ++ (ids.map (fun i => loadSet (i.data ++ ['\n']))).flatten := by
  induction ids generalizing c with
  | nil => simp [ledger_block]
  | cons i ids ih =>
    rw [ledger_block_cons, ← List.append_assoc, ih _ (wf_content_append_line c i.data),
      loadSet_append _ _ hc]
    simp

theorem data_asString (s : String) : s.data.asString = s :=
  String.asString_toList s

theorem mem_loadSet_block_left {c : List Char} {x : String} (ids : List String)
    (hc : wf_content c) (hx : x ∈ loadSet c) : x ∈ loadSet (c ++ ledger_block ids) := by
  rw [loadSet_block c ids hc]
  exact List.mem_append_left _ hx

theorem mem_loadSet_block_of_id {c : List Char} {ids : List String} {i : String}
    (hc : wf_content c) (hmem : i ∈ ids) (hnl : '\n' ∉ i.data) (hcr : '\r' ∉ i.data)
    (hstrip : stripCh i.data = i.data) : i ∈ loadSet (c ++ ledger_block ids) := by
  rw [loadSet_block c ids hc]
  refine List.mem_append_right _ ?_
  rw [List.mem_flatten]
  refine ⟨loadSet (i.data ++ ['\n']), List.mem_map_of_mem _ hmem, ?_⟩
  rw [loadSet_line _ hnl hcr, hstrip]
  simp [data_asString]

/-! ### Lemmas: the dedup filter -/

theorem filter_new_videos_mem_iff (processed : List String) (vids : List RawVideo)
    (i : String) :
    (∃ w ∈ filter_new_videos processed vids, w.id = i) ↔
      (∃ v ∈ vids, v.id = some i) ∧ i ≠ "" ∧ i ∉ processed := by
  induction vids with
  | nil => simp [filter_new_videos]
  | cons v rest ih =>
    cases hv : v.id with
    | none =>
      simp only [filter_new_videos, hv, ih]
      constructor
      · rintro ⟨⟨w, hw, hwid⟩, h1, h2⟩
        exact ⟨⟨w, List.mem_cons_of_mem _ hw, hwid⟩, h1, h2⟩
      · rintro ⟨⟨w, hw, hwid⟩, h1, h2⟩
        rcases List.mem_cons.mp hw with h | h
        · subst h
          rw [hv] at hwid
          cases hwid
        · exact ⟨⟨w, h, hwid⟩, h1, h2⟩
    | some j =>
      by_cases hkeep : j ≠ "" ∧ j ∉ processed
      · simp only [filter_new_videos, hv, if_pos hkeep]
        constructor
        · rintro ⟨w, hw, hwid⟩
          rcases List.mem_cons.mp hw with h | h
          · subst h
            subst hwid
            exact ⟨⟨v, List.mem_cons_self _ _, hv⟩, hkeep⟩
          · rcases (ih).mp ⟨w, h, hwid⟩ with ⟨⟨u, hu, huid⟩, h1, h2⟩
            exact ⟨⟨u, List.mem_cons_of_mem _ hu, huid⟩, h1, h2⟩
        · rintro ⟨⟨u, hu, huid⟩, h1, h2⟩
          rcases List.mem_cons.mp hu with h | h
          · subst h
            rw [hv] at huid
            injection huid with huid
            subst huid
            exact ⟨_, List.mem_cons_self _ _, rfl⟩
          · rcases (ih).mpr ⟨⟨u, h, huid⟩, h1, h2⟩ with ⟨w, hw, hwid⟩
            exact ⟨w, List.mem_cons_of_mem _ hw, hwid⟩
      · simp only [filter_new_videos, hv, if_neg hkeep]
        rw [ih]
        constructor
        · rintro ⟨⟨u, hu, huid⟩, h1, h2⟩
          exact ⟨⟨u, List.mem_cons_of_mem _ hu, huid⟩, h1, h2⟩
        · rintro ⟨⟨u, hu, huid⟩, h1, h2⟩
          rcases List.mem_cons.mp hu with h | h
          · subst h
            rw [hv] at huid
            injection huid with huid
            subst huid
            exact absurd ⟨h1, h2⟩ hkeep
          · exact ⟨⟨u, h, huid⟩, h1, h2⟩

theorem filter_new_videos_cons_none (processed : List String) (v : RawVideo)
    (rest : List RawVideo) (hv : v.id = none) :
    filter_new_videos processed (v :: rest) = filter_new_videos processed rest := by
  simp only [filter_new_videos, hv]

theorem filter_new_videos_cons_keep (processed : List String) (v : RawVideo)
    (rest : List RawVideo) (j : String) (hv : v.id = some j) (h1 : j ≠ "")
    (h2 : j ∉ processed) :
    filter_new_videos processed (v :: rest) =
      { id := j, title := v.title.getD untitled_title, created_at := v.created_at,
        url := v.url } :: filter_new_videos processed rest := by
  simp only [filter_new_videos, hv, if_pos (And.intro h1 h2)]

theorem filter_new_videos_cons_drop (processed : List String) (v : RawVideo)
    (rest : List RawVideo) (j : String) (hv : v.id = some j)
    (h : ¬(j ≠ "" ∧ j ∉ processed)) :
    filter_new_videos processed (v :: rest) = filter_new_videos processed rest := by
  simp only [filter_new_videos, hv, if_neg h]

theorem filter_new_videos_unseen (processed : List String) (vids : List RawVideo) :
    ∀ w ∈ filter_new_videos processed vids, w.id ≠ "" ∧ w.id ∉ processed := by
  induction vids with
  | nil => simp [filter_new_videos]
  | cons v rest ih =>
    intro w hw
    cases hv : v.id with
    | none =>
      rw [filter_new_videos_cons_none processed v rest hv] at hw
      exact ih w hw
    | some j =>
      by_cases hkeep : j ≠ "" ∧ j ∉ processed
      · rw [filter_new_videos_cons_keep processed v rest j hv hkeep.1 hkeep.2] at hw
        rcases List.mem_cons.mp hw with h | h
        · subst h
          exact hkeep
        · exact ih w h
      · rw [filter_new_videos_cons_drop processed v rest j hv hkeep] at hw
        exact ih w hw

theorem filter_new_videos_ids_sublist (processed : List String) (vids : List RawVideo) :
    ((filter_new_videos processed vids).map Video.id).Sublist
      (vids.filterMap RawVideo.id) := by
  induction vids with
  | nil => simp [filter_new_videos]
  | cons v rest ih =>
    cases hv : v.id with
    | none =>
      rw [filter_new_videos_cons_none processed v rest hv,
        List.filterMap_cons, hv]
      exact ih
    | some j =>
      rw [List.filterMap_cons, hv]
      by_cases hkeep : j ≠ "" ∧ j ∉ processed
      · rw [filter_new_videos_cons_keep processed v rest j hv hkeep.1 hkeep.2]
        simpa using List.Sublist.cons₂ j ih
      · rw [filter_new_videos_cons_drop processed v rest j hv hkeep]
        exact List.Sublist.cons _ ih

theorem filter_new_videos_all_present (processed : List String) (vids : List RawVideo)
    (h : ∀ v ∈ vids, ∃ s, v.id = some s ∧ s ≠ "") :
    filter_new_videos processed vids =
      (vids.filter (fun v => !(processed.contains (v.id.getD (""))))).map
        (fun v => { id := v.id.getD (""), title := v.title.getD untitled_title,
                    created_at := v.created_at, url := v.url }) := by
  induction vids with
  | nil => simp [filter_new_videos]
  | cons v rest ih =>
    rcases h v (List.mem_cons_self _ _) with ⟨s, hs, hne⟩
    have hrest := fun u hu => h u (List.mem_cons_of_mem _ hu)
    by_cases hmem : s ∈ processed
    · rw [filter_new_videos_cons_drop processed v rest s hs (by simp [hmem])]
      rw [List.filter_cons_of_neg (by simp [hs, hmem])]
      exact ih hrest
    · rw [filter_new_videos_cons_keep processed v rest s hs hne hmem]
      rw [List.filter_cons_of_pos (by simp [hs, hmem])]
      rw [List.map_cons, ih hrest]
      simp [hs]

theorem filter_new_videos_all_seen (processed : List String) (vids : List RawVideo)
    (h : ∀ v ∈ vids, ∀ s, v.id = some s → s ≠ "" → s ∈ processed) :
    filter_new_videos processed vids = [] := by
  induction vids with
  | nil => simp [filter_new_videos]
  | cons v rest ih =>
    have hrest := fun u hu => h u (List.mem_cons_of_mem _ hu)
    cases hv : v.id with
    | none =>
      rw [filter_new_videos_cons_none processed v rest hv]
      exact ih hrest
    | some j =>
      rw [filter_new_videos_cons_drop processed v rest j hv ?_]
      · exact ih hrest
      · rintro ⟨hne, hnm⟩
        exact hnm (h v (List.mem_cons_self _ _) j hv hne)

/-! ### Lemmas: event traces -/

theorem appended_ids_append (a b : List Event) :
    appended_ids (a ++ b) = appended_ids a ++ appended_ids b := by
  simp [appended_ids]

theorem download_video_trace (o : ItemOracle) (vid dir : String) :
    ∃ b, (download_video o vid dir).2 = [Event.toolRun tool_yt_dlp vid b] := by
  cases h : o.dl with
  | error e => exact ⟨false, by simp [download_video, h]⟩
  | ok u =>
    cases hf : o.listing.find? (fun item => vid.data.isPrefixOf item.data) with
    | none => exact ⟨true, by simp [download_video, h, hf]⟩
    | some item => exact ⟨true, by simp [download_video, h, hf]⟩

theorem extract_frames_trace (o : ItemOracle) (p : Option String) (vid bd : String) :
    (extract_frames o p vid bd).2 = [] ∨
      ∃ b, (extract_frames o p vid bd).2 = [Event.toolRun tool_ffmpeg vid b] := by
  cases p with
  | none => exact Or.inl rfl
  | some s =>
    by_cases hs : s = ""
    · exact Or.inl (by simp [extract_frames, hs])
    · by_cases hex : o.path_exists
      · cases hff : o.ff with
        | ok u => exact Or.inr ⟨true, by simp [extract_frames, hs, hex, hff]⟩
        | error e => exact Or.inr ⟨false, by simp [extract_frames, hs, hex, hff]⟩
      · exact Or.inl (by simp [extract_frames, hs, hex])

theorem extract_frames_trace_of_true (o : ItemOracle) (p : Option String) (vid bd : String)
    (h : (extract_frames o p vid bd).1 = true) :
    (extract_frames o p vid bd).2 = [Event.toolRun tool_ffmpeg vid true] := by
  cases p with
  | none => simp [extract_frames] at h
  | some s =>
    by_cases hs : s = ""
    · simp [extract_frames, hs] at h
    · by_cases hex : o.path_exists
      · cases hff : o.ff with
        | ok u => simp [extract_frames, hs, hex, hff]
        | error e => simp [extract_frames, hs, hex, hff] at h
      · simp [extract_frames, hs, hex] at h

theorem appended_ids_download (o : ItemOracle) (vid dir : String) :
    appended_ids (download_video o vid dir).2 = [] := by
  rcases download_video_trace o vid dir with ⟨b, hb⟩
  simp [hb, appended_ids]

theorem appended_ids_extract (o : ItemOracle) (p : Option String) (vid bd : String) :
    appended_ids (extract_frames o p vid bd).2 = [] := by
  rcases extract_frames_trace o p vid bd with h | ⟨b, h⟩ <;> simp [h, appended_ids]

theorem caf_aux_toolRun_other (seen : List String) (t i : String) (b : Bool)
    (rest : List Event) (ht : t ≠ tool_ffmpeg) :
    commit_after_frames_aux seen (Event.toolRun t i b :: rest) =
      commit_after_frames_aux seen rest := by
  simp [commit_after_frames_aux, ht]

theorem caf_aux_ffmpeg_true (seen : List String) (i : String) (rest : List Event) :
    commit_after_frames_aux seen (Event.toolRun tool_ffmpeg i true :: rest) =
      commit_after_frames_aux (i :: seen) rest := by
  simp [commit_after_frames_aux]

theorem caf_aux_ffmpeg_false (seen : List String) (i : String) (rest : List Event) :
    commit_after_frames_aux seen (Event.toolRun tool_ffmpeg i false :: rest) =
      commit_after_frames_aux seen rest := by
  simp [commit_after_frames_aux]

theorem caf_aux_append_mem (seen : List String) (i : String) (rest : List Event)
    (h : i ∈ seen) :
    commit_after_frames_aux seen (Event.ledgerAppend i :: rest) =
      commit_after_frames_aux seen rest := by
  simp [commit_after_frames_aux, h]

theorem caf_aux_removeFile (seen : List String) (p : String) (rest : List Event) :
    commit_after_frames_aux seen (Event.removeFile p :: rest) =
      commit_after_frames_aux seen rest := by
  simp [commit_after_frames_aux]

theorem succeeding_ids_cons (orc : String → ItemOracle) (v : Video) (rest : List Video) :
    succeeding_ids orc (v :: rest) =
      if item_success (orc v.id) v.id then v.id :: succeeding_ids orc rest
      else succeeding_ids orc rest := by
  simp only [succeeding_ids, List.filter_cons]
  split <;> simp

/-! ### The per-item loop characterized -/

theorem main_loop_spec (orc : String → ItemOracle) (wl : List Video) :
    ∀ (c : List Char) (s f : Nat), ∃ tr,
      main_loop orc wl (some c) s f =
        (some (c ++ ledger_block (succeeding_ids orc wl)),
         s + (wl.filter (fun v => item_success (orc v.id) v.id)).length,
         f + (wl.filter (fun v => !(item_success (orc v.id) v.id))).length,
         tr) ∧
      appended_ids tr = succeeding_ids orc wl ∧
      ∀ seen, commit_after_frames_aux seen tr = true := by
  induction wl with
  | nil =>
    intro c s f
    refine ⟨[], ?_, ?_, ?_⟩
    · simp [main_loop, succeeding_ids, ledger_block]
    · simp [appended_ids, succeeding_ids]
    · intro seen
      simp [commit_after_frames_aux]
  | cons v rest ih =>
    intro c s f
    rcases hdl : download_video (orc v.id) v.id temp_download_dir with ⟨dl, ev1⟩
    have hev1 : ∃ b, ev1 = [Event.toolRun tool_yt_dlp v.id b] := by
      rcases download_video_trace (orc v.id) v.id temp_download_dir with ⟨b, hb⟩
      rw [hdl] at hb
      exact ⟨b, hb⟩
    rcases hev1 with ⟨b1, hev1⟩
    cases dl with
    | none =>
      have hfail : item_success (orc v.id) v.id = false := by
        simp [item_success, hdl]
      rcases ih c s (f + 1) with ⟨tr, htr, happ, hcaf⟩
      refine ⟨ev1 ++ tr, ?_, ?_, ?_⟩
      · simp only [main_loop, hdl, htr, Prod.mk.injEq]
        refine ⟨?_, ?_, ?_, trivial⟩
        · rw [succeeding_ids_cons, if_neg (by simp [hfail])]
        · rw [List.filter_cons_of_neg (by simp [hfail])]
        · rw [List.filter_cons_of_pos (by simp [hfail])]
          simp
          omega
      · rw [appended_ids_append, happ, hev1, succeeding_ids_cons,
          if_neg (by simp [hfail])]
        simp [appended_ids]
      · intro seen
        rw [hev1, List.cons_append, List.nil_append,
          caf_aux_toolRun_other _ _ _ _ _ (by decide)]
        exact hcaf seen
    | some path =>
      rcases hex : extract_frames (orc v.id) (some path) v.id OUTPUT_DIRECTORY with ⟨ok, ev2⟩
      cases ok with
      | false =>
        have hfail : item_success (orc v.id) v.id = false := by
          simp [item_success, hdl, hex]
        have hev2 : ev2 = [] ∨ ∃ b, ev2 = [Event.toolRun tool_ffmpeg v.id b] := by
          rcases extract_frames_trace (orc v.id) (some path) v.id OUTPUT_DIRECTORY with
            h | ⟨b, h⟩ <;> rw [hex] at h
          · exact Or.inl h
          · exact Or.inr ⟨b, h⟩
        rcases ih c s (f + 1) with ⟨tr, htr, happ, hcaf⟩
        refine ⟨ev1 ++ ev2 ++ tr, ?_, ?_, ?_⟩
        · simp only [main_loop, hdl, hex, htr, Prod.mk.injEq]
          refine ⟨?_, ?_, ?_, by simp⟩
          · rw [succeeding_ids_cons, if_neg (by simp [hfail])]
          · rw [List.filter_cons_of_neg (by simp [hfail])]
          · rw [List.filter_cons_of_pos (by simp [hfail])]
            simp
            omega
        · rw [appended_ids_append, appended_ids_append, happ, hev1,
            succeeding_ids_cons, if_neg (by simp [hfail])]
          rcases hev2 with h | ⟨b2, h⟩ <;> simp [h, appended_ids]
        · intro seen
          rw [List.append_assoc, hev1, List.cons_append, List.nil_append,
            caf_aux_toolRun_other _ _ _ _ _ (by decide)]
          rcases hev2 with h | ⟨b2, h⟩
          · rw [h, List.nil_append]
            exact hcaf seen
          · rw [h, List.cons_append, List.nil_append]
            cases b2 with
            | true =>
              rw [caf_aux_ffmpeg_true]
              exact hcaf _
            | false =>
              rw [caf_aux_ffmpeg_false]
              exact hcaf seen
      | true =>
        have hsucc : item_success (orc v.id) v.id = true := by
          simp [item_success, hdl, hex]
        have hev2 : ev2 = [Event.toolRun tool_ffmpeg v.id true] := by
          have h2 := extract_frames_trace_of_true (orc v.id) (some path) v.id
            OUTPUT_DIRECTORY (by rw [hex])
          rw [hex] at h2
          exact h2
        rcases ih (c ++ v.id.data ++ ['\n']) (s + 1) f with ⟨tr, htr, happ, hcaf⟩
        refine ⟨ev1 ++ ev2 ++ [Event.ledgerAppend v.id] ++ [Event.removeFile path] ++ tr,
          ?_, ?_, ?_⟩
        · simp only [main_loop, hdl, hex, save_processed_video, htr, Prod.mk.injEq]
          refine ⟨?_, ?_, ?_, by simp⟩
          · rw [succeeding_ids_cons, if_pos hsucc, ledger_block_cons]
            simp
          · rw [List.filter_cons_of_pos (by simp [hsucc])]
            simp
            omega
          · rw [List.filter_cons_of_neg (by simp [hsucc])]
        · rw [appended_ids_append, appended_ids_append, appended_ids_append,
            appended_ids_append, happ, hev1, hev2, succeeding_ids_cons, if_pos hsucc]
          simp [appended_ids]
        · intro seen
          rw [hev1, hev2]
          simp only [List.append_assoc, List.cons_append, List.nil_append]
          rw [caf_aux_toolRun_other _ _ _ _ _ (by decide), caf_aux_ffmpeg_true,
            caf_aux_append_mem _ _ _ (List.mem_cons_self _ _), caf_aux_removeFile]
          exact hcaf _

/-! ### The orchestrator characterized -/

theorem caf_aux_netGet (seen : List String) (u : String) (rest : List Event) :
    commit_after_frames_aux seen (Event.netGet u :: rest) =
      commit_after_frames_aux seen rest := by
  simp [commit_after_frames_aux]

theorem caf_aux_ledger_io (seen : List String) (b : Bool) (rest : List Event) :
    commit_after_frames_aux seen
        ((if b then [Event.ledgerRead] else [Event.ledgerCreate]) ++ rest) =
      commit_after_frames_aux seen rest := by
  cases b <;> simp [commit_after_frames_aux]

theorem load_processed_videos_eq (ledger0 : Option (List Char)) :
    load_processed_videos ledger0 =
      (loadSet (ledger0.getD []), some (ledger0.getD []),
        if ledger0.isSome then [Event.ledgerRead] else [Event.ledgerCreate]) := by
  cases ledger0 <;> simp [load_processed_videos, loadSet, splitLinesCh]

theorem appended_ids_ledger_io (b : Bool) :
    appended_ids (if b then [Event.ledgerRead] else [Event.ledgerCreate]) = [] := by
  cases b <;> rfl

theorem get_twitch_user_id_trace (cfg : Config) (u : String)
    (resp : Except NetError (Option String)) :
    (get_twitch_user_id cfg u resp).2 = [] ∨
      (get_twitch_user_id cfg u resp).2 = [Event.netGet (users_url u)] := by
  by_cases hc : creds_misconfigured cfg
  · exact Or.inl (by simp [get_twitch_user_id, hc])
  · cases resp <;> exact Or.inr (by simp [get_twitch_user_id, hc])

theorem get_new_videos_trace (uid : Option String)
    (resp : Except NetError (List RawVideo)) (processed : List String) :
    (get_new_videos uid resp processed).2 = [] ∨
      ∃ u, (get_new_videos uid resp processed).2 = [Event.netGet (videos_url u)] := by
  cases uid with
  | none => exact Or.inl rfl
  | some u =>
    by_cases hu : u = ""
    · exact Or.inl (by simp [get_new_videos, hu])
    · cases resp <;> exact Or.inr ⟨u, by simp [get_new_videos, hu]⟩

theorem main_run_spec (cfg : Config) (ledger0 : Option (List Char)) (env : Env)
    (wl : List Video) (hwl : wl = worklist_of cfg env (loadSet (ledger0.getD []))) :
    (main_run cfg ledger0 env).ledger =
        (if has_placeholder cfg then ledger0
         else some (ledger0.getD [] ++ ledger_block (succeeding_ids env.orc wl))) ∧
      (main_run cfg ledger0 env).success =
        (wl.filter (fun v => item_success (env.orc v.id) v.id)).length ∧
      (main_run cfg ledger0 env).failure =
        (wl.filter (fun v => !(item_success (env.orc v.id) v.id))).length ∧
      appended_ids (main_run cfg ledger0 env).trace = succeeding_ids env.orc wl ∧
      commit_after_frames (main_run cfg ledger0 env).trace = true := by
  cases hp : has_placeholder cfg with
  | true =>
    have hwl0 : wl = [] := by simp [hwl, worklist_of, hp]
    subst hwl0
    simp [main_run, hp, succeeding_ids, appended_ids, commit_after_frames,
      commit_after_frames_aux]
  | false =>
    rcases hu : get_twitch_user_id cfg cfg.streamer env.userResp with ⟨uidOpt, ev2⟩
    have hev2 : ev2 = [] ∨ ev2 = [Event.netGet (users_url cfg.streamer)] := by
      rcases get_twitch_user_id_trace cfg cfg.streamer env.userResp with h | h <;>
        rw [hu] at h
      · exact Or.inl h
      · exact Or.inr h
    have hev2app : appended_ids ev2 = [] := by
      rcases hev2 with h | h <;> simp [h, appended_ids]
    have hev2caf : ∀ seen rest, commit_after_frames_aux seen (ev2 ++ rest) =
        commit_after_frames_aux seen rest := by
      intro seen rest
      rcases hev2 with h | h <;> simp [h, commit_after_frames_aux]
    cases uidOpt with
    | none =>
      have hwl0 : wl = [] := by simp [hwl, worklist_of, hp, hu]
      subst hwl0
      simp only [main_run, hp, load_processed_videos_eq, hu, Bool.false_eq_true,
        if_false]
      refine ⟨?_, ?_, ?_, ?_, ?_⟩
      · simp [succeeding_ids, ledger_block]
      · simp
      · simp
      · rw [appended_ids_append, appended_ids_ledger_io, hev2app]
        simp [succeeding_ids]
      · rw [commit_after_frames, caf_aux_ledger_io]
        rcases hev2 with h | h <;> simp [h, commit_after_frames_aux]
    | some uid =>
      by_cases huid : uid = ""
      · have hwl0 : wl = [] := by simp [hwl, worklist_of, hp, hu, huid]
        subst hwl0
        simp only [main_run, hp, load_processed_videos_eq, hu, huid,
          Bool.false_eq_true, if_false, eq_self_iff_true, if_true]
        refine ⟨?_, ?_, ?_, ?_, ?_⟩
        · simp [succeeding_ids, ledger_block]
        · simp
        · simp
        · rw [appended_ids_append, appended_ids_ledger_io, hev2app]
          simp [succeeding_ids]
        · rw [commit_after_frames, caf_aux_ledger_io]
          rcases hev2 with h | h <;> simp [h, commit_after_frames_aux]
      · rcases hvideos : get_new_videos (some uid) env.videosResp
          (loadSet (ledger0.getD [])) with ⟨new_videos, ev3⟩
        have hwl0 : wl = new_videos := by
          simp [hwl, worklist_of, hp, hu, huid, hvideos]
        subst hwl0
        have hev3 : ev3 = [] ∨ ∃ u, ev3 = [Event.netGet (videos_url u)] := by
          rcases get_new_videos_trace (some uid) env.videosResp
            (loadSet (ledger0.getD [])) with h | ⟨u, h⟩ <;> rw [hvideos] at h
          · exact Or.inl h
          · exact Or.inr ⟨u, h⟩
        have hev3app : appended_ids ev3 = [] := by
          rcases hev3 with h | ⟨u, h⟩ <;> simp [h, appended_ids]
        have hev3caf : ∀ seen rest, commit_after_frames_aux seen (ev3 ++ rest) =
            commit_after_frames_aux seen rest := by
          intro seen rest
          rcases hev3 with h | ⟨u, h⟩ <;> simp [h, commit_after_frames_aux]
        cases hemp : wl.isEmpty with
        | true =>
          have hnil : wl = [] := List.isEmpty_iff.mp hemp
          subst hnil
          simp only [main_run, hp, load_processed_videos_eq, hu, huid, hvideos, hemp,
            Bool.false_eq_true, if_false, if_neg huid, if_true]
          refine ⟨?_, ?_, ?_, ?_, ?_⟩
          · simp [succeeding_ids, ledger_block]
          · simp
          · simp
          · rw [appended_ids_append, appended_ids_append, appended_ids_ledger_io,
              hev2app, hev3app]
            simp [succeeding_ids]
          · rw [commit_after_frames, List.append_assoc, caf_aux_ledger_io, hev2caf]
            rcases hev3 with h | ⟨u, h⟩ <;> simp [h, commit_after_frames_aux]
        | false =>
          rcases main_loop_spec env.orc wl (ledger0.getD []) 0 0 with
            ⟨tr, htr, happ, hcaf⟩
          simp only [main_run, hp, load_processed_videos_eq, hu, huid, hvideos, hemp,
            htr, Bool.false_eq_true, if_false, if_neg huid]
          refine ⟨?_, ?_, ?_, ?_, ?_⟩
          · simp
          · simp
          · simp
          · rw [appended_ids_append, appended_ids_append, appended_ids_append,
              appended_ids_ledger_io, hev2app, hev3app, happ]
            simp
          · rw [commit_after_frames, List.append_assoc, List.append_assoc,
              caf_aux_ledger_io, hev2caf, hev3caf]
            exact hcaf []

/-! ### Script-entry level lemmas -/

theorem script_entry_placeholder (cfg : Config) (ledger0 : Option (List Char))
    (env : Env) (hp : has_placeholder cfg = true) :
    script_entry cfg ledger0 env =
      { ledger := some (ledger0.getD []), outcome := Outcome.configError,
        success := 0, failure := 0,
        trace := if ledger0.isSome then [Event.ledgerRead] else [Event.ledgerCreate] } := by
  simp [script_entry, load_processed_videos_eq, main_run, hp]

theorem script_entry_spec (cfg : Config) (ledger0 : Option (List Char)) (env : Env)
    (wl : List Video) (hwl : wl = worklist_of cfg env (loadSet (ledger0.getD []))) :
    (script_entry cfg ledger0 env).ledger =
        some (ledger0.getD [] ++ ledger_block (succeeding_ids env.orc wl)) ∧
      appended_ids (script_entry cfg ledger0 env).trace = succeeding_ids env.orc wl := by
  rcases main_run_spec cfg (some (ledger0.getD [])) env wl hwl with ⟨hL, _, _, hA, _⟩
  have hLs : (script_entry cfg ledger0 env).ledger =
      (main_run cfg (some (ledger0.getD [])) env).ledger := by
    simp [script_entry, load_processed_videos_eq]
  have hTs : (script_entry cfg ledger0 env).trace =
      (if ledger0.isSome then [Event.ledgerRead] else [Event.ledgerCreate]) ++
        (main_run cfg (some (ledger0.getD [])) env).trace := by
    simp [script_entry, load_processed_videos_eq]
  constructor
  · rw [hLs, hL]
    by_cases hp : has_placeholder cfg
    · have hwl0 : wl = [] := by simp [hwl, worklist_of, hp]
      simp [hp, hwl0, succeeding_ids, ledger_block]
    · simp [hp]
  · rw [hTs, appended_ids_append, appended_ids_ledger_io, hA]
    simp

/-! ### Bounds relating worklists, listings and appends -/

theorem worklist_unseen (cfg : Config) (env : Env) (processed : List String) :
    ∀ w ∈ worklist_of cfg env processed, w.id ≠ "" ∧ w.id ∉ processed := by
  intro w hw
  unfold worklist_of at hw
  by_cases hp : has_placeholder cfg
  · simp [hp] at hw
  · simp only [hp, Bool.false_eq_true, if_false] at hw
    rcases huid : (get_twitch_user_id cfg cfg.streamer env.userResp).1 with _ | uid
    · rw [huid] at hw
      simp at hw
    · rw [huid] at hw
      by_cases he : uid = ""
      · simp [he] at hw
      · simp only [if_neg he] at hw
        cases hresp : env.videosResp with
        | error err =>
          rw [hresp] at hw
          simp [get_new_videos, he] at hw
        | ok vids =>
          rw [hresp] at hw
          simp only [get_new_videos, if_neg he] at hw
          exact filter_new_videos_unseen processed vids w hw

theorem worklist_count_le (cfg : Config) (env : Env) (processed : List String)
    (i : String) :
    ((worklist_of cfg env processed).map Video.id).count i ≤ listing_id_count env i := by
  unfold worklist_of
  by_cases hp : has_placeholder cfg
  · simp [hp]
  · simp only [hp, Bool.false_eq_true, if_false]
    rcases huid : (get_twitch_user_id cfg cfg.streamer env.userResp).1 with _ | uid
    · simp
    · by_cases he : uid = ""
      · simp [he]
      · simp only [if_neg he]
        cases hresp : env.videosResp with
        | error err => simp [get_new_videos, he, listing_id_count, hresp]
        | ok vids =>
          simp only [get_new_videos, if_neg he, listing_id_count, hresp]
          exact (filter_new_videos_ids_sublist processed vids).count_le i

theorem succeeding_ids_sublist (orc : String → ItemOracle) (wl : List Video) :
    (succeeding_ids orc wl).Sublist (wl.map Video.id) :=
  (List.filter_sublist wl).map Video.id

theorem appendCount_append (i : String) (a b : List Event) :
    appendCount i (a ++ b) = appendCount i a + appendCount i b := by
  simp [appendCount, appended_ids_append]

/-! ### At-most-once across runs -/

theorem script_runs_cons_trace (cfg : Config) (e : Env) (es : List Env)
    (ledger0 : Option (List Char)) :
    (script_runs cfg (e :: es) ledger0).2 =
      (script_entry cfg ledger0 e).trace ++
        (script_runs cfg es (script_entry cfg ledger0 e).ledger).2 := by
  rcases hrr : script_runs cfg es (script_entry cfg ledger0 e).ledger with ⟨lf, tr⟩
  simp [script_runs, hrr]

theorem script_runs_append_bound (cfg : Config) (i : String)
    (hstrip : stripCh i.data = i.data) (hnl : '\n' ∉ i.data) (hcr : '\r' ∉ i.data) :
    ∀ (envs : List Env) (ledger0 : Option (List Char)),
      wf_ledger ledger0 →
      (∀ e ∈ envs, listing_id_count e i ≤ 1) →
      appendCount i (script_runs cfg envs ledger0).2 ≤ 1 ∧
        (i ∈ loadSet (ledger0.getD []) →
          appendCount i (script_runs cfg envs ledger0).2 = 0) := by
  intro envs
  induction envs with
  | nil =>
    intro ledger0 hwf hcnt
    constructor <;> simp [script_runs, appendCount, appended_ids]
  | cons e es ih =>
    intro ledger0 hwf hcnt
    have hwf0 : wf_content (ledger0.getD []) := by
      cases ledger0 with
      | none => exact Or.inl rfl
      | some c => exact hwf
    rcases script_entry_spec cfg ledger0 e (worklist_of cfg e (loadSet (ledger0.getD [])))
      rfl with ⟨hL, hA⟩
    have hwf' : wf_ledger (script_entry cfg ledger0 e).ledger := by
      rw [hL]
      exact wf_content_block _ _ hwf0
    have h1 : appendCount i (script_entry cfg ledger0 e).trace =
        (succeeding_ids e.orc (worklist_of cfg e (loadSet (ledger0.getD [])))).count i := by
      rw [appendCount, hA]
    have hb : (succeeding_ids e.orc
          (worklist_of cfg e (loadSet (ledger0.getD [])))).count i ≤
        listing_id_count e i :=
      le_trans ((succeeding_ids_sublist _ _).count_le i)
        (worklist_count_le cfg e (loadSet (ledger0.getD [])) i)
    have hrec := ih (script_entry cfg ledger0 e).ledger hwf'
      (fun e' he' => hcnt e' (List.mem_cons_of_mem _ he'))
    rw [script_runs_cons_trace, appendCount_append, h1]
    by_cases hi : i ∈ loadSet (ledger0.getD [])
    · have h0 : (succeeding_ids e.orc
          (worklist_of cfg e (loadSet (ledger0.getD [])))).count i = 0 := by
        rw [List.count_eq_zero]
        intro hmem
        have hmem2 : i ∈ (worklist_of cfg e (loadSet (ledger0.getD []))).map Video.id :=
          (succeeding_ids_sublist _ _).mem hmem
        obtain ⟨w, hw, hid⟩ := List.mem_map.mp hmem2
        exact (worklist_unseen cfg e _ w hw).2 (hid ▸ hi)
      have hi' : i ∈ loadSet ((script_entry cfg ledger0 e).ledger.getD []) := by
        rw [hL]
        exact mem_loadSet_block_left _ hwf0 hi
      have hz := hrec.2 hi'
      rw [h0, hz]
      exact ⟨by omega, fun _ => rfl⟩
    · cases hc1 : (succeeding_ids e.orc
          (worklist_of cfg e (loadSet (ledger0.getD [])))).count i with
      | zero =>
        refine ⟨by have := hrec.1; omega, fun hmem => absurd hmem hi⟩
      | succ n =>
        have hle : n + 1 ≤ 1 := hc1 ▸ le_trans hb (hcnt e (List.mem_cons_self _ _))
        have hmem : i ∈ succeeding_ids e.orc
            (worklist_of cfg e (loadSet (ledger0.getD []))) := by
          rw [← List.count_pos_iff, hc1]
          omega
        have hi' : i ∈ loadSet ((script_entry cfg ledger0 e).ledger.getD []) := by
          rw [hL]
          exact mem_loadSet_block_of_id hwf0 hmem hnl hcr hstrip
        have hz := hrec.2 hi'
        rw [hz]
        exact ⟨by omega, fun hmem0 => absurd hmem0 hi⟩

/-! ### JSON-level lemmas -/

theorem except_bind_ok {ε α β : Type} (a : α) (k : α → Except ε β) :
    (Except.ok a >>= k : Except ε β) = k a := rfl

theorem except_pure_eq {ε α : Type} (a : α) : (pure a : Except ε α) = Except.ok a := rfl

theorem video_loop_step_ok (processed : List String) (acc : List JVideo) (v : Json)
    (hv : entry_ok v = true) :
    ∃ acc2, video_loop_step processed acc v = Except.ok acc2 := by
  cases v with
  | obj fields =>
    simp only [entry_ok] at hv
    cases hidv : pyLookup fields ("id") Json.null with
    | arr l =>
      rw [hidv] at hv
      simp [hashableJson] at hv
    | obj f2 =>
      rw [hidv] at hv
      simp [hashableJson] at hv
    | null =>
      exact ⟨acc, by simp [video_loop_step, pyDictGet, hidv, truthyJson, except_bind_ok, except_pure_eq]⟩
    | jbool b =>
      cases b with
      | false => exact ⟨acc, by simp [video_loop_step, pyDictGet, hidv, truthyJson, except_bind_ok, except_pure_eq]⟩
      | true =>
        exact ⟨_, by simp [video_loop_step, pyDictGet, hidv, truthyJson, pyInSet, except_bind_ok, except_pure_eq]; rfl⟩
    | num n =>
      by_cases hn : n = 0
      · exact ⟨acc, by simp [video_loop_step, pyDictGet, hidv, truthyJson, hn, except_bind_ok, except_pure_eq]⟩
      · exact ⟨_, by simp [video_loop_step, pyDictGet, hidv, truthyJson, hn, pyInSet, except_bind_ok, except_pure_eq]; rfl⟩
    | str st =>
      by_cases hs : st = ""
      · exact ⟨acc, by simp [video_loop_step, pyDictGet, hidv, truthyJson, hs, except_bind_ok, except_pure_eq]⟩
      · by_cases hm : st ∈ processed
        · exact ⟨acc, by simp [video_loop_step, pyDictGet, hidv, truthyJson, hs, pyInSet, hm, except_bind_ok, except_pure_eq]⟩
        · exact ⟨_, by simp [video_loop_step, pyDictGet, hidv, truthyJson, hs, pyInSet, hm, except_bind_ok, except_pure_eq]; rfl⟩
  | null => simp [entry_ok] at hv
  | jbool b => simp [entry_ok] at hv
  | num n => simp [entry_ok] at hv
  | str st => simp [entry_ok] at hv
  | arr l => simp [entry_ok] at hv

theorem foldlM_loop_ok (processed : List String) (items : List Json)
    (h : items.all entry_ok = true) :
    ∀ acc, ∃ r, items.foldlM (video_loop_step processed) acc = Except.ok r := by
  induction items with
  | nil => exact fun acc => ⟨acc, rfl⟩
  | cons v rest ih =>
    intro acc
    rw [List.all_cons, Bool.and_eq_true] at h
    rcases video_loop_step_ok processed acc v h.1 with ⟨acc2, hstep⟩
    rcases ih h.2 acc2 with ⟨r, hr⟩
    refine ⟨r, ?_⟩
    rw [List.foldlM_cons, hstep, except_bind_ok]
    exact hr

theorem get_new_videos_body_ok (payload : Json) (processed : List String)
    (h : well_shaped payload = true) :
    ∃ vs, get_new_videos_body payload processed = Except.ok vs := by
  cases payload with
  | obj fields =>
    simp only [well_shaped] at h
    cases hdata : pyLookup fields ("data") (Json.arr []) with
    | arr items =>
      rw [hdata] at h
      rcases foldlM_loop_ok processed items h [] with ⟨r, hr⟩
      refine ⟨r, ?_⟩
      simp [get_new_videos_body, pyDictGet, hdata, pyIter, hr, except_bind_ok, except_pure_eq]
    | null => rw [hdata] at h; simp at h
    | jbool b => rw [hdata] at h; simp at h
    | num n => rw [hdata] at h; simp at h
    | str st => rw [hdata] at h; simp at h
    | obj f2 => rw [hdata] at h; simp at h
  | null => simp [well_shaped] at h
  | jbool b => simp [well_shaped] at h
  | num n => simp [well_shaped] at h
  | str st => simp [well_shaped] at h
  | arr l => simp [well_shaped] at h

/-! ### Claim theorems -/

/-- C1 (counterexample): invoking the program (its `__main__` block) with the
all-placeholder configuration and no existing ledger file still creates the
ledger file before `main`'s configuration gate runs: the run's trace contains
a ledger-creation event, contradicting the claim that no ledger read,
creation, or write occurs. -/
theorem c1_counterexample :
    Event.ledgerCreate ∈ (script_entry placeholder_cfg none dummy_env).trace := by
  rw [script_entry_placeholder placeholder_cfg none dummy_env (by decide)]
  simp

/-- C1 (amended): for every run invoked with a placeholder value for the
streamer username, client ID, or app access token, the program issues no
network call, never appends to the ledger, and `main` itself aborts with the
configuration-error outcome before performing any ledger access (its own
trace is empty); however the script's entry block unconditionally reads the
ledger file — creating it empty when absent — before `main` runs, so the
whole-script trace is exactly that single ledger read/creation. -/
theorem c1_amended (cfg : Config) (ledger0 : Option (List Char)) (env : Env)
    (hp : has_placeholder cfg = true) :
    main_run cfg ledger0 env =
        { ledger := ledger0, outcome := Outcome.configError, success := 0, failure := 0,
          trace := [] } ∧
      (script_entry cfg ledger0 env).trace =
        (if ledger0.isSome then [Event.ledgerRead] else [Event.ledgerCreate]) ∧
      (∀ u, Event.netGet u ∉ (script_entry cfg ledger0 env).trace) ∧
      appended_ids (script_entry cfg ledger0 env).trace = [] ∧
      (script_entry cfg ledger0 env).outcome = Outcome.configError := by
  have hse := script_entry_placeholder cfg ledger0 env hp
  refine ⟨by simp [main_run, hp], by rw [hse], ?_, ?_, by rw [hse]⟩
  · intro u
    rw [hse]
    cases ledger0 <;> simp
  · rw [hse]
    cases ledger0 <;> simp [appended_ids]

/-- C1 (witness): the amended statement instantiated at the placeholder
configuration, an absent ledger and a concrete environment. -/
theorem c1_witness :
    main_run placeholder_cfg none dummy_env =
        { ledger := none, outcome := Outcome.configError, success := 0, failure := 0,
          trace := [] } ∧
      (script_entry placeholder_cfg none dummy_env).trace =
        (if (none : Option (List Char)).isSome then [Event.ledgerRead]
         else [Event.ledgerCreate]) ∧
      (∀ u, Event.netGet u ∉ (script_entry placeholder_cfg none dummy_env).trace) ∧
      appended_ids (script_entry placeholder_cfg none dummy_env).trace = [] ∧
      (script_entry placeholder_cfg none dummy_env).outcome = Outcome.configError :=
  c1_amended placeholder_cfg none dummy_env (by decide)

/-- C3: in every run, the ids appended to the ledger are exactly the ids of
the worklist entries whose download stage returned a path and whose frame
extraction succeeded on it (in order), and every ledger append in the run's
trace is preceded by a successful frame extraction for that id. -/
theorem c3_commit_ordering (cfg : Config) (ledger0 : Option (List Char)) (env : Env) :
    appended_ids (main_run cfg ledger0 env).trace =
        succeeding_ids env.orc (worklist_of cfg env (loadSet (ledger0.getD []))) ∧
      commit_after_frames (main_run cfg ledger0 env).trace = true := by
  rcases main_run_spec cfg ledger0 env
    (worklist_of cfg env (loadSet (ledger0.getD []))) rfl with ⟨_, _, _, hA, hC⟩
  exact ⟨hA, hC⟩

/-- C7: whenever the frame-extraction stage is called with an absent or empty
local path, or with a path that does not exist on disk, it returns failure
with an empty trace — in particular the external frame sampler is never
invoked. -/
theorem c7_extract_guard (o : ItemOracle) (p : Option String) (vid bd : String)
    (h : p = none ∨ p = some ("") ∨ o.path_exists = false) :
    extract_frames o p vid bd = (false, []) := by
  rcases h with h | h | h
  · subst h
    rfl
  · subst h
    simp [extract_frames]
  · cases p with
    | none => rfl
    | some s =>
      by_cases hs : s = ""
      · simp [extract_frames, hs]
      · simp [extract_frames, hs, h]

/-- C7 (witness): the guard instantiated with an existing oracle whose
path-existence check fails. -/
theorem c7_witness :
    extract_frames
        { dl := Except.ok (), listing := ["x.mp4"], path_exists := false,
          ff := Except.ok () }
        (some ("twitch_clips/temp_downloads/x.mp4")) "x" OUTPUT_DIRECTORY =
      (false, []) :=
  c7_extract_guard _ _ _ _ (Or.inr (Or.inr rfl))

/-- C9: an id is the id of some worklist entry produced by the filtering loop
iff some listing entry carries exactly that id, the id is nonempty, and it is
not in the processed set — so entries lacking an id, or whose id is the empty
string, are excluded even when unseen: the keep-condition is the conjunction
of truthiness and newness. -/
theorem c9_truthy_filter (processed : List String) (vids : List RawVideo) (i : String) :
    (∃ w ∈ filter_new_videos processed vids, w.id = i) ↔
      (∃ v ∈ vids, v.id = some i) ∧ i ≠ "" ∧ i ∉ processed :=
  filter_new_videos_mem_iff processed vids i

/-- C10: whenever the download stage returns a path, that path is the
download directory joined with an entry that was present in the
post-download scan of that directory, and the entry's name has the video id
as a string prefix (nothing stronger: any entry merely extending the id can
be the one returned). -/
theorem c10_download_path (o : ItemOracle) (vid dir p : String) (ev : List Event)
    (h : download_video o vid dir = (some p, ev)) :
    ∃ item, item ∈ o.listing ∧ vid.data.isPrefixOf item.data = true ∧
      p = dir ++ "/" ++ item := by
  unfold download_video at h
  cases hdl : o.dl with
  | error e =>
    rw [hdl] at h
    simp at h
  | ok u =>
    rw [hdl] at h
    cases hf : o.listing.find? (fun item => vid.data.isPrefixOf item.data) with
    | none =>
      rw [hf] at h
      simp at h
    | some item =>
      rw [hf] at h
      simp only [Prod.mk.injEq, Option.some_inj] at h
      exact ⟨item, List.mem_of_find?_eq_some hf, by simpa using List.find?_some hf, h.1.symm⟩

/-- C10 (witness): with the scan returning `[v1x.mp4]` for id `v1`, the
returned path is the directory joined with that entry — whose name is not of
the form `v1.<ext>` but merely extends the id. -/
theorem c10_witness :
    ∃ item, item ∈ o10.listing ∧ ("v1" : String).data.isPrefixOf item.data = true ∧
      ("dl" ++ "/" ++ "v1x.mp4" : String) = "dl" ++ "/" ++ item :=
  c10_download_path o10 ("v1") ("dl") ("dl" ++ "/" ++ "v1x.mp4") _ rfl

/-- C4: on listings whose entries all carry a nonempty id (the shape of an
Item in the data model), the worklist is the pure, order-preserving filter of
the listing that drops exactly the entries whose id is already in the seen
set and keeps every other entry, in listing order. -/
theorem c4_dedup_filter (processed : List String) (vids : List RawVideo)
    (h : ∀ v ∈ vids, ∃ s, v.id = some s ∧ s ≠ "") :
    filter_new_videos processed vids =
      (vids.filter (fun v => !(processed.contains (v.id.getD (""))))).map
        (fun v => { id := v.id.getD (""), title := v.title.getD untitled_title,
                    created_at := v.created_at, url := v.url }) :=
  filter_new_videos_all_present processed vids h

/-- C4 (witness): the spec's example — remote listing `[v1, v2, v3]` with a
ledger containing `v2` yields the worklist `[v1, v3]` in that order. -/
theorem c4_witness :
    filter_new_videos ["v2"] [raw_v1, raw_v2, raw_v3] =
      [{ id := "v1", title := "t1", created_at := some ("c1"), url := some ("u1") },
       { id := "v3", title := "t3", created_at := some ("c3"), url := some ("u3") }] := by
  rw [c4_dedup_filter ["v2"] [raw_v1, raw_v2, raw_v3]
    (by intro v hv; fin_cases hv <;> exact ⟨_, rfl, by decide⟩)]
  rfl

/-- C6: a run starting from an existing ledger, with a remote listing all of
whose (truthy) ids are already recorded in that ledger, processes zero items
— zero successes, zero failures, no ledger appends — and leaves the ledger
file's contents unchanged. -/
theorem c6_idempotent (cfg : Config) (c : List Char) (env : Env)
    (vids : List RawVideo) (hresp : env.videosResp = Except.ok vids)
    (hseen : ∀ v ∈ vids, ∀ s, v.id = some s → s ≠ "" → s ∈ loadSet c) :
    (main_run cfg (some c) env).ledger = some c ∧
      (main_run cfg (some c) env).success = 0 ∧
      (main_run cfg (some c) env).failure = 0 ∧
      appended_ids (main_run cfg (some c) env).trace = [] := by
  have hwl : worklist_of cfg env (loadSet ((some c : Option (List Char)).getD [])) = [] := by
    unfold worklist_of
    by_cases hp : has_placeholder cfg
    · simp [hp]
    · simp only [hp, Bool.false_eq_true, if_false]
      rcases huid : (get_twitch_user_id cfg cfg.streamer env.userResp).1 with _ | uid
      · rfl
      · by_cases he : uid = ""
        · simp [he]
        · simp only [if_neg he, get_new_videos, hresp]
          exact filter_new_videos_all_seen _ vids hseen
  rcases main_run_spec cfg (some c) env [] hwl.symm with ⟨hL, hS, hF, hA, _⟩
  refine ⟨?_, by simpa using hS, by simpa using hF, by simpa [succeeding_ids] using hA⟩
  rw [hL]
  by_cases hp : has_placeholder cfg <;> simp [hp, succeeding_ids, ledger_block]

/-- C6 (witness): second run over a ledger recording `v2` with the listing
still `[v2]`: nothing is processed and the ledger is unchanged. -/
theorem c6_witness :
    (main_run good_cfg (some ledger_v2) env_v2).ledger = some ledger_v2 ∧
      (main_run good_cfg (some ledger_v2) env_v2).success = 0 ∧
      (main_run good_cfg (some ledger_v2) env_v2).failure = 0 ∧
      appended_ids (main_run good_cfg (some ledger_v2) env_v2).trace = [] :=
  c6_idempotent good_cfg ledger_v2 env_v2 [raw_v2] rfl (by
    intro v hv s hs hne
    fin_cases hv
    have hs2 : s = "v2" := by
      have : (some ("v2") : Option String) = some s := hs
      simpa using this.symm
    subst hs2
    decide)

/-- C8 (counterexample): a syntactically valid response payload whose top
level is a JSON array (not an object) does not degrade to an empty list —
the listing operation propagates an uncaught AttributeError, contradicting
the claim that malformed payloads always yield `[]` and never escape. -/
theorem c8_counterexample :
    get_new_videos_json (some ("u")) (HttpOutcome.payload (Json.arr [])) [] =
      Except.error PyExc.attributeError := rfl

/-- C8 (amended): transport errors, non-success HTTP statuses and
undecodable bodies all yield an empty list; any body error from the caught
exception classes (HTTPError, RequestException, JSONDecodeError, KeyError)
likewise degrades to an empty list; and a well-shaped payload (top-level
object whose data value is an array of objects with hashable id values) is
processed without any exception.  Malformed payloads outside that class,
however, raise uncaught exceptions that propagate to the caller. -/
theorem c8_amended (uid : String) (processed : List String) (j : Json)
    (hj : well_shaped j = true) :
    get_new_videos_json (some uid) HttpOutcome.transportFail processed =
        Except.ok [] ∧
      get_new_videos_json (some uid) HttpOutcome.httpFail processed = Except.ok [] ∧
      get_new_videos_json (some uid) HttpOutcome.decodeFail processed = Except.ok [] ∧
      (∀ j2 e, get_new_videos_body j2 processed = Except.error e →
        caught_by_handlers e = true →
        get_new_videos_json (some uid) (HttpOutcome.payload j2) processed =
          Except.ok []) ∧
      ∃ vs, get_new_videos_json (some uid) (HttpOutcome.payload j) processed =
        Except.ok vs := by
  by_cases hu : uid = ""
  · refine ⟨by simp [get_new_videos_json, hu], by simp [get_new_videos_json, hu],
      by simp [get_new_videos_json, hu], ?_, ⟨[], by simp [get_new_videos_json, hu]⟩⟩
    intro j2 e h1 h2
    simp [get_new_videos_json, hu]
  · refine ⟨by simp [get_new_videos_json, hu], by simp [get_new_videos_json, hu],
      by simp [get_new_videos_json, hu], ?_, ?_⟩
    · intro j2 e h1 h2
      simp [get_new_videos_json, hu, h1, h2]
    · rcases get_new_videos_body_ok j processed hj with ⟨vs, hvs⟩
      exact ⟨vs, by simp [get_new_videos_json, hu, hvs]⟩

/-- C8 (witness): the amended statement instantiated at a nonempty user id
and a concrete well-shaped payload. -/
theorem c8_witness :
    get_new_videos_json (some ("u")) HttpOutcome.transportFail [] = Except.ok [] ∧
      get_new_videos_json (some ("u")) HttpOutcome.httpFail [] = Except.ok [] ∧
      get_new_videos_json (some ("u")) HttpOutcome.decodeFail [] = Except.ok [] ∧
      (∀ j2 e, get_new_videos_body j2 [] = Except.error e →
        caught_by_handlers e = true →
        get_new_videos_json (some ("u")) (HttpOutcome.payload j2) [] =
          Except.ok []) ∧
      ∃ vs, get_new_videos_json (some ("u")) (HttpOutcome.payload payload_ok) [] =
        Except.ok vs :=
  c8_amended ("u") [] payload_ok (by decide)

/-- Auxiliary counting fact: a list's length splits into the lengths of a
filter and its complement. -/
theorem length_filter_add_length_filter_not {α : Type} (l : List α) (p : α → Bool) :
    (l.filter p).length + (l.filter (fun a => !(p a))).length = l.length := by
  rw [← List.countP_eq_length_filter, ← List.countP_eq_length_filter]
  have h := List.length_eq_countP_add_countP (l := l) p
  have h2 : List.countP (fun a => decide ¬p a = true) l =
      List.countP (fun a => !(p a)) l := by
    apply List.countP_congr
    intro x hx
    simp
  omega

/-- C5: per-item failure is isolated.  If the environment is changed only in
the external-tool oracles of one worklist id `b`, making `b`'s processing
fail, while every other worklist entry succeeds, then the run still
processes and records every other entry exactly (in order), reports exactly
one failure, and the summary counts always satisfy succeeded + failed =
worklist length. -/
theorem c5_isolation (cfg : Config) (ledger0 : Option (List Char)) (env env2 : Env)
    (b : String) (wl : List Video)
    (h1 : env2.userResp = env.userResp)
    (h2 : env2.videosResp = env.videosResp)
    (h3 : ∀ x, x ≠ b → env2.orc x = env.orc x)
    (hb : item_success (env2.orc b) b = false)
    (hwl : wl = worklist_of cfg env (loadSet (ledger0.getD [])))
    (hcount : (wl.filter (fun v => v.id = b)).length = 1)
    (hothers : ∀ v ∈ wl, v.id ≠ b → item_success (env.orc v.id) v.id = true) :
    (main_run cfg ledger0 env2).success = wl.length - 1 ∧
      (main_run cfg ledger0 env2).failure = 1 ∧
      (main_run cfg ledger0 env2).success + (main_run cfg ledger0 env2).failure =
        wl.length ∧
      appended_ids (main_run cfg ledger0 env2).trace =
        (wl.filter (fun v => v.id ≠ b)).map Video.id := by
  have hwl2 : wl = worklist_of cfg env2 (loadSet (ledger0.getD [])) := by
    rw [hwl]
    unfold worklist_of
    rw [h1, h2]
  rcases main_run_spec cfg ledger0 env2 wl hwl2 with ⟨_, hS, hF, hA, _⟩
  have hpt : ∀ v ∈ wl,
      (item_success (env2.orc v.id) v.id) = (decide (v.id ≠ b)) := by
    intro v hv
    by_cases hvb : v.id = b
    · rw [hvb, hb]
      simp
    · rw [h3 v.id hvb, hothers v hv hvb]
      simp [hvb]
  have hfilter : wl.filter (fun v => item_success (env2.orc v.id) v.id) =
      wl.filter (fun v => v.id ≠ b) :=
    List.filter_congr hpt
  have hfilter2 : wl.filter (fun v => !(item_success (env2.orc v.id) v.id)) =
      wl.filter (fun v => v.id = b) := by
    apply List.filter_congr
    intro v hv
    rw [hpt v hv]
    simp
  have hsum : (main_run cfg ledger0 env2).success + (main_run cfg ledger0 env2).failure =
      wl.length := by
    rw [hS, hF]
    exact length_filter_add_length_filter_not wl _
  have hfail : (main_run cfg ledger0 env2).failure = 1 := by
    rw [hF, hfilter2, hcount]
  refine ⟨by omega, hfail, hsum, ?_⟩
  rw [hA, succeeding_ids, hfilter]

/-- C5 (witness): worklist `[A, B, C]` with B's acquisition failing — A and C
are still processed and recorded in order, with exactly one failure and
counts summing to three. -/
theorem c5_witness :
    (main_run good_cfg none env_abc_failB).success = [item_A, item_B, item_C].length - 1 ∧
      (main_run good_cfg none env_abc_failB).failure = 1 ∧
      (main_run good_cfg none env_abc_failB).success +
          (main_run good_cfg none env_abc_failB).failure =
        [item_A, item_B, item_C].length ∧
      appended_ids (main_run good_cfg none env_abc_failB).trace =
        ([item_A, item_B, item_C].filter (fun v => v.id ≠ "B")).map Video.id :=
  c5_isolation good_cfg none env_abc env_abc_failB "B" [item_A, item_B, item_C]
    rfl rfl
    (by
      intro x hx
      simp only [env_abc_failB, env_abc]
      rw [if_neg hx])
    (by decide)
    (by decide)
    (by decide)
    (by
      intro v hv hne
      fin_cases hv
      · decide
      · exact absurd rfl hne
      · decide)

/-- C2 (counterexample): an identifier carrying a trailing space is appended
to the ledger in each of two consecutive runs — the id is written raw but
compared against the stripped ledger lines, so the second run does not
recognize it as already processed. -/
theorem c2_counterexample :
    appendCount ("a" ++ " ") (script_runs good_cfg [env_sp, env_sp] none).2 = 2 := by
  decide

/-- C2 (amended): for every identifier that contains no newline character
(neither LF nor CR, either of which would split into several ledger lines
under Python's universal-newline text-mode read) and equals its own
Python-stripped form, if the initial ledger file is absent, empty or
newline-terminated, and no single run's remote listing carries that
identifier more than once, then the identifier is appended to the ledger at
most once across any number of sequential runs. -/
theorem c2_at_most_once (cfg : Config) (envs : List Env) (ledger0 : Option (List Char))
    (i : String) (hstrip : stripCh i.data = i.data) (hnl : '\n' ∉ i.data)
    (hcr : '\r' ∉ i.data) (hwf : wf_ledger ledger0)
    (hcnt : ∀ e ∈ envs, listing_id_count e i ≤ 1) :
    appendCount i (script_runs cfg envs ledger0).2 ≤ 1 :=
  (script_runs_append_bound cfg i hstrip hnl hcr envs ledger0 hwf hcnt).1

/-- C2 (witness): the amended statement instantiated over two runs listing a
well-formed identifier. -/
theorem c2_witness :
    appendCount ("a") (script_runs good_cfg [env_a, env_a] none).2 ≤ 1 :=
  c2_at_most_once good_cfg [env_a, env_a] none ("a") (by decide) (by decide)
    (by decide) True.intro
    (by
      intro e he
      rcases List.mem_cons.mp he with h | h
      · subst h
        decide
      · rcases List.mem_cons.mp h with h2 | h2
        · subst h2
          decide
        · exact absurd h2 (List.not_mem_nil e))
